import Mathlib

/-!
Verification of the gazelle-style BUILD-file generator of this repository
(package `rules` in the source, plus the merger and resolver components).

Strings are modelled by Lean `String`; the Go standard-library string
operations used by the source (`strings.HasPrefix`, `strings.LastIndex`,
`strings.TrimPrefix`, byte-wise string ordering) are implemented below over
the underlying character lists, so that every definition is executable.
Go indexes bytes while we index characters; the two coincide on the ASCII
paths this code manipulates.
-/

/-- Boolean prefix test on character lists; mirrors `strings.HasPrefix`. -/
def isPfxOf (p s : List Char) : Bool :=
  match p, s with
  | [], _ => true
  | _ :: _, [] => false
  | a :: ps, b :: ss => a = b && isPfxOf ps ss

/-- Embeds `strings.HasPrefix(s, p)` from the Go standard library. -/
def goHasPrefix (s p : String) : Bool := isPfxOf p.data s.data

/-- Embeds `strings.LastIndex(s, pat)` over character lists: the largest index at
which `pat` occurs in `s`, or `none` when it does not occur (Go returns -1). -/
def lastIndexSub (s pat : List Char) : Option Nat :=
  ((List.range (s.length + 1)).filter (fun i => isPfxOf pat (s.drop i))).getLast?

/-- Whether `pat` occurs as a substring of `s` (Go `strings.Contains`). -/
def hasSub (s pat : String) : Bool := (lastIndexSub s.data pat.data).isSome

/-- Embeds `strings.TrimPrefix(s, p)` from the Go standard library. -/
def goTrimPrefix (s p : String) : String :=
  if goHasPrefix s p then ⟨s.data.drop p.data.length⟩ else s

/-- Byte-wise string order used by `sort.StringSlice` (UTF-8 byte order
coincides with code-point order, which the character-list order models). -/
def strLe (a b : String) : Prop := a.data ≤ b.data

instance : DecidableRel strLe := fun a b => inferInstanceAs (Decidable (a.data ≤ b.data))

instance : IsTotal String strLe := ⟨fun a b => le_total a.data b.data⟩

instance : IsTrans String strLe := ⟨fun _ _ _ h1 h2 => le_trans h1 h2⟩

instance : IsAntisymm String strLe :=
  ⟨fun a b h1 h2 => by
    cases a; cases b
    simp only [strLe] at h1 h2
    simp [le_antisymm h1 h2]⟩

/-- Split a character list at every slash, keeping empty segments; used only
to state segment-level properties of package paths. -/
def splitSeg (s : List Char) : List (List Char) :=
  match s with
  | [] => [[]]
  | c :: rest =>
    let r := splitSeg rest
    if c = '/' then [] :: r
    else
      match r with
      | [] => [[c]]
      | h :: t => (c :: h) :: t

/-- Embeds `filepath.Base`, simplified to the final slash-separated segment (the
source only applies it to clean, slash-terminated-free directory paths). -/
def filepathBase (p : String) : String := ⟨(splitSeg p.data).getLastD []⟩

/-- Go `%q` formatting, modelled as plain double-quoting (the error strings
the source formats contain no characters needing escapes). -/
def quoteStr (s : String) : String := "\"" ++ s ++ "\""

/-! ## Data model -/

/-- A build label, as in the source `label` struct: package path and rule
name (the repository component is not used by the code under study). -/
structure label where
  pkg : String
  name : String
deriving DecidableEq

/-- Canonical text form of a label, per the spec grammar:
`//pkg:name` for a local package, `:name` within the same package. -/
def labelString (l : label) : String :=
  if l.pkg = "" then ":" ++ l.name else "//" ++ l.pkg ++ ":" ++ l.name

/-- Modelled from the spec: a platform-partitioned string set is a base
list plus per-platform override lists (`packages.PlatformStrings` is not
under src/). -/
structure PlatformStrings where
  strs : List String
  platform : List (String × List String)
deriving DecidableEq

/-- Modelled from the spec: emptiness across all platforms
(`PlatformStrings.IsEmpty` is not under src/). -/
def psIsEmpty (ps : PlatformStrings) : Bool :=
  ps.strs.isEmpty && ps.platform.all (fun x => x.2.isEmpty)

/-- Membership of a string in any partition of a platform-partitioned set. -/
def psMem (s : String) (ps : PlatformStrings) : Prop :=
  s ∈ ps.strs ∨ ∃ pl ∈ ps.platform, s ∈ pl.2

/-- A build target of a package, as in `packages.Target`: platform-partitioned
sources, compile/link flags and imports.  `hasGo` is modelled from the spec:
whether the target has Go sources on any platform (the `HasGo` method is not
under src/). -/
structure Target where
  sources : PlatformStrings
  clinkopts : PlatformStrings
  copts : PlatformStrings
  imports : PlatformStrings
  hasGo : Bool
deriving DecidableEq

/-- A source package, as in `packages.Package`.  `isCommand` is modelled from
the spec ("is-command" flag; the `IsCommand` method is not under src/). -/
structure Package where
  dir : String
  rel : String
  library : Target
  cgoLibrary : Target
  binary : Target
  test : Target
  xtest : Target
  protos : List String
  hasPbGo : Bool
  hasTestdata : Bool
  isCommand : Bool
deriving DecidableEq

/-! ## Constants from the source -/

/-- Label of the Skylark file which provides Go rules. -/
def goRulesBzl : String := "@io_bazel_rules_go//go:def.bzl"

/-- Name of the default go_library rule in a Go package directory. -/
def defaultLibName : String := "go_default_library"

/-- Name of an internal test corresponding to defaultLibName. -/
def defaultTestName : String := "go_default_test"

/-- Name of an external test corresponding to defaultLibName. -/
def defaultXTestName : String := "go_default_xtest"

/-- Name of the filegroup created whenever the library contains .pb.go files. -/
def defaultProtosName : String := "go_default_library_protos"

/-- Name of the default cgo_library rule in a Go package directory. -/
def defaultCgoLibName : String := "cgo_default_library"

/-! ## Rules and attributes -/

/-- Attribute values of a generated rule: literal string, string sequence,
platform-partitioned string set, or glob expression — the closed set of
value shapes of the spec data model. -/
inductive AttrValue where
  | str (s : String)
  | strs (xs : List String)
  | plat (ps : PlatformStrings)
  | glob (patterns : List String)
deriving DecidableEq

/-- A generated rule (`bf.Rule` as built by `newRule`): kind, positional
arguments, and ordered named attributes. -/
structure Rule where
  kind : String
  args : List String
  attrs : List (String × AttrValue)
deriving DecidableEq

/-- First-match association lookup, mirroring attribute access on a rule. -/
def alookup {α : Type} (n : String) : List (String × α) → Option α
  | [] => none
  | (k, v) :: rest => if n = k then some v else alookup n rest

/-- Embeds `bf.Rule.Name()`: the value of the rule's "name" attribute. -/
def ruleName (r : Rule) : String :=
  match alookup "name" r.attrs with
  | some (.str s) => s
  | _ => ""

/-! ## Resolvers -/

/-- Source `isRelative`: determines if an importpath is relative
(source: `strings.HasPrefix(importpath, "./") || strings.HasPrefix(importpath, "..")`). -/
def isRelative (importpath : String) : Bool :=
  goHasPrefix importpath "./" || goHasPrefix importpath ".."

/-- Source `vendoredResolver.resolve` from src/go/tools/gazelle/rules/resolve_vendored.go:
resolves external packages as packages in vendor/, always succeeding. -/
def vendoredResolve (importpath : String) (_dir : String) : Except String label :=
  .ok { pkg := "vendor/" ++ importpath, name := defaultLibName }

/-- The UnoMode branch of `NewGenerator`: each configured directory is
stripped of the cleaned repository root, then `sort.Sort(dirs)` sorts the
slice ascending; the subsequent `sort.Reverse(dirs)` only constructs a
reversed-comparison view whose result is discarded, so the slice itself
remains in ascending order.  `repoRootClean` stands for
`path.Clean(c.RepoRoot)` (the roots considered here are already clean). -/
def unoProjRoots (repoRootClean : String) (cdirs : List String) : List String :=
  List.insertionSort strLe (cdirs.map (fun dir => goTrimPrefix dir (repoRootClean ++ "/")))

/-- Modelled from the spec: the Workspace (multi-root) resolver tries the
configured sub-project roots in list order and selects the first one that is
a prefix of the containing directory (`unoResolver.resolve` is not under
src/).  Returns the selected root. -/
def unoSelectRoot (projRoots : List String) (dir : String) : Option String :=
  projRoots.find? (fun root => goHasPrefix dir root)

/-- The composite resolver closure built by `NewGenerator`: an import that is
not the prefix itself, not below `prefix + "/"`, and not relative is
delegated to the mode-specific resolver `e`; every other import goes to the
structured resolver `r`.  The test is applied per import. -/
def resolverDispatch (goPfx : String) (e r : String → String → Except String label)
    (importpath dir : String) : Except String label :=
  if importpath ≠ goPfx && !goHasPrefix importpath (goPfx ++ "/") && !isRelative importpath then
    e importpath dir
  else
    r importpath dir

/-! ## The generator -/

/-- The configuration fields of `config.Config` used by the generator
(`GoPrefix` is called `goPfx` here to respect lexical constraints). -/
structure config where
  goPfx : String
  repoRoot : String
deriving DecidableEq

/-- The `generator` struct: configuration plus the composite label resolver. -/
structure generator where
  c : config
  r : String → String → Except String label

/-- The error produced for one unresolvable import:
`fmt.Errorf("in dir %q, could not resolve import path %q: %v", dir, imp, err)`. -/
def mkResolveErr (dir imp err : String) : String :=
  "in dir " ++ quoteStr dir ++ ", could not resolve import path " ++ quoteStr imp ++ ": " ++ err

/-- Apply a fallible function to every element of a list, separating
successes (in order) from error messages (in order). -/
def mapListE (f : String → Except String String) (l : List String) : List String × List String :=
  (l.filterMap (fun s => (f s).toOption),
   l.filterMap (fun s => match f s with | .error e => some e | .ok _ => none))

/-- Modelled from the spec: `PlatformStrings.Map` applies a fallible function
to every string in every partition, collecting errors (not under src/). -/
def psMap (f : String → Except String String) (ps : PlatformStrings) :
    PlatformStrings × List String :=
  let b := mapListE f ps.strs
  let pl := ps.platform.map (fun x => (x.1, mapListE f x.2))
  (⟨b.1, pl.map (fun x => (x.1, x.2.1))⟩, b.2 ++ (pl.map (fun x => x.2.2)).flatten)

/-- Modelled from the spec: `PlatformStrings.Clean` deduplicates each
partition (not under src/). -/
def psClean (ps : PlatformStrings) : PlatformStrings :=
  ⟨ps.strs.dedup, ps.platform.map (fun x => (x.1, x.2.dedup))⟩

/-- Source `generator.dependencies`: resolve every import of the target through the
composite resolver; a failure yields an error naming the directory and
the import path and drops only that dependency.  The first component is the
returned deps; the second component is the list of errors the source writes
to the log. -/
def dependencies (g : generator) (imports : PlatformStrings) (dir : String) :
    PlatformStrings × List String :=
  let resolve := fun imp =>
    match g.r imp dir with
    | .ok l => Except.ok (labelString l)
    | .error e => Except.error (mkResolveErr dir imp e)
  let r := psMap resolve imports
  (psClean r.1, r.2)

/-- Source `checkInternalVisibility` overrides the given visibility if the package
is internal (source: `strings.LastIndex(rel, "/internal/")` then
`strings.HasPrefix(rel, "internal/")`). -/
def checkInternalVisibility (rel visibility : String) : String :=
  match lastIndexSub rel.data "/internal/".data with
  | some i => "//" ++ (⟨rel.data.take i⟩ : String) ++ ":__subpackages__"
  | none => if goHasPrefix rel "internal/" then "//:__subpackages__" else visibility

/-- Source `generator.generateRule`: attributes are constructed in the fixed
priority order used by `bf.Rewrite` — name, srcs, clinkopts, copts, data,
library, visibility, deps — each appended only when present. -/
def generateRule (g : generator) (rel kind name visibility library : String)
    (hasTestdata : Bool) (target : Target) : Rule :=
  { kind := kind
    args := []
    attrs :=
      ("name", AttrValue.str name) ::
        ((if psIsEmpty target.sources then [] else [("srcs", AttrValue.plat target.sources)]) ++
         (if psIsEmpty target.clinkopts then []
          else [("clinkopts", AttrValue.plat target.clinkopts)]) ++
         (if psIsEmpty target.copts then [] else [("copts", AttrValue.plat target.copts)]) ++
         (if hasTestdata then [("data", AttrValue.glob ["testdata/**"])] else []) ++
         (if library = "" then [] else [("library", AttrValue.str (":" ++ library))]) ++
         (if visibility = "" then [] else [("visibility", AttrValue.strs [visibility])]) ++
         (if psIsEmpty target.imports then []
          else [("deps", AttrValue.plat (dependencies g target.imports rel).1)])) }

/-- The fixed catalog of rule kinds requiring an explicit load declaration,
in the source's "keep sorted" order (filegroup is built in and excluded). -/
def loadableKinds : List String :=
  ["cgo_library", "go_binary", "go_library", "go_prefix", "go_test"]

/-- Source `generator.generateLoad`: the load statement's string arguments — the
module path followed by every loadable kind present among the rules, in
catalog order; `none` when the argument list would hold only the module path
(`len(args) == 1` in the source). -/
def generateLoad (rs : List Rule) : Option (List String) :=
  let kinds := rs.map Rule.kind
  let args := goRulesBzl :: loadableKinds.filter (fun k => decide (k ∈ kinds))
  if args.length = 1 then none else some args

/-- Source `generator.generateCgoLib`: emitted iff the cgo target has Go sources;
visibility is the literal "//visibility:private". -/
def generateCgoLib (g : generator) (pkg : Package) : Option (String × Rule) :=
  if !pkg.cgoLibrary.hasGo then none
  else
    some (defaultCgoLibName,
      generateRule g pkg.rel "cgo_library" defaultCgoLibName "//visibility:private" ""
        false pkg.cgoLibrary)

/-- Source `generator.generateLib`: emitted iff the library target has Go sources or
a cgo library was emitted; private when the package is a command, otherwise
internal-checked public. -/
def generateLib (g : generator) (pkg : Package) (cgoName : String) : Option (String × Rule) :=
  if !pkg.library.hasGo && cgoName = "" then none
  else
    let visibility :=
      if pkg.isCommand then "//visibility:private"
      else checkInternalVisibility pkg.rel "//visibility:public"
    some (defaultLibName,
      generateRule g pkg.rel "go_library" defaultLibName visibility cgoName false pkg.library)

/-- Source `generator.generateBin`: emitted iff the package is a command and the
binary has sources or a library exists; named after the directory base. -/
def generateBin (g : generator) (pkg : Package) (library : String) : Option Rule :=
  if !pkg.isCommand || (psIsEmpty pkg.binary.sources && library = "") then none
  else
    some (generateRule g pkg.rel "go_binary" (filepathBase pkg.dir)
      (checkInternalVisibility pkg.rel "//visibility:public") library false pkg.binary)

/-- Source `generator.filegroup`: groups source .proto files when pre-generated
.pb.go files are also present. -/
def filegroup (_g : generator) (pkg : Package) : Option Rule :=
  if !pkg.hasPbGo || pkg.protos.isEmpty then none
  else
    some { kind := "filegroup"
           args := []
           attrs := [("name", AttrValue.str defaultProtosName),
                     ("srcs", AttrValue.strs pkg.protos),
                     ("visibility", AttrValue.strs ["//visibility:public"])] }

/-- Source `generator.generateTest`: internal test, referencing the library. -/
def generateTest (g : generator) (pkg : Package) (library : String) : Option Rule :=
  if !pkg.test.hasGo then none
  else
    let name :=
      if library = "" || library = defaultLibName then defaultTestName
      else library ++ "_test"
    some (generateRule g pkg.rel "go_test" name "" library pkg.hasTestdata pkg.test)

/-- Source `generator.generateXTest`: external test, not referencing the library. -/
def generateXTest (g : generator) (pkg : Package) (library : String) : Option Rule :=
  if !pkg.xtest.hasGo then none
  else
    let name :=
      if library = "" || library = defaultLibName then defaultXTestName
      else library ++ "_xtest"
    some (generateRule g pkg.rel "go_test" name "" "" pkg.hasTestdata pkg.xtest)

/-- Source `generator.generateRules`: the ordered rule list for one package —
go_prefix for the repository root, then cgo library, library, binary,
filegroup, internal test, external test, each only when emitted. -/
def generateRules (g : generator) (pkg : Package) : List Rule :=
  (if pkg.rel = "" then [{ kind := "go_prefix", args := [g.c.goPfx], attrs := [] }] else []) ++
    (let cgo := generateCgoLib g pkg
     let cgoLibrary := (cgo.map Prod.fst).getD ""
     let lib := generateLib g pkg cgoLibrary
     let library := (lib.map Prod.fst).getD ""
     (cgo.map Prod.snd).toList ++ (lib.map Prod.snd).toList ++
       (generateBin g pkg library).toList ++ (filegroup g pkg).toList ++
       (generateTest g pkg library).toList ++ (generateXTest g pkg library).toList)

/-! ## The merge engine

`MergeWithExisting` itself is not under src/ (only its test is), so this
component is modelled from the spec, section 4.3: rules pair up by identical
(kind, name); unmatched existing rules are kept verbatim in place; unmatched
new rules are inserted; matched pairs of a managed kind merge
attribute-by-attribute with the new value winning, except that existing list
elements bearing the preservation marker are retained after the fresh
elements, and existing-only hand-authored attributes are carried over; the
final attribute order follows the fixed priority list; rule kinds outside
the managed catalog are left completely untouched; the load statement is
recomputed fresh from the final rule-kind set. -/

/-- Modelled from the spec: an attribute value of a previously persisted
rule.  List elements carry a Bool that is true when the element bears the
trailing preservation-marker comment. -/
inductive XVal where
  | str (s : String)
  | strs (xs : List (String × Bool))
  | plat (ps : PlatformStrings)
  | glob (patterns : List String)
deriving DecidableEq

/-- Modelled from the spec: a rule of a previously persisted (or merged)
tree: kind, name, and ordered named attributes with markers. -/
structure XRule where
  kind : String
  name : String
  attrs : List (String × XVal)
deriving DecidableEq

/-- Modelled from the spec: a rule of a freshly generated tree, per the spec
data model {kind, name, ordered attribute list} (generated values carry no
comments, hence no markers). -/
structure GenRule where
  kind : String
  name : String
  attrs : List (String × AttrValue)
deriving DecidableEq

/-- A freshly generated value viewed as a persisted value: no element is
marked. -/
def attrToX : AttrValue → XVal
  | .str s => .str s
  | .strs xs => .strs (xs.map (fun x => (x, false)))
  | .plat ps => .plat ps
  | .glob ps => .glob ps

/-- Modelled from the spec: the catalog of rule kinds the tool manages;
anything else (e.g. a third-party generated rule) is never touched. -/
def managedKinds : List String :=
  ["cgo_library", "filegroup", "go_binary", "go_library", "go_prefix", "go_test"]

/-- Modelled from the spec: attribute names classified as hand-authored-only
(a size designation or a data glob the tool does not compute), carried over
from the existing rule when the generator did not produce them. -/
def handAuthoredOnly (n : String) : Bool := n = "size" || n = "data"

/-- Modelled from the spec: the fixed attribute priority list governing the
final attribute order of a merged rule (name first, deps last; size sits
between name and srcs, as the merger test expects). -/
def namePriority : List String :=
  ["name", "size", "srcs", "clinkopts", "copts", "data", "library", "visibility", "deps"]

/-- The canonical order of a set of attribute names: catalog names in
priority order first, remaining names sorted byte-wise. -/
def keyOrder (ns : List String) : List String :=
  namePriority.filter (fun k => decide (k ∈ ns)) ++
    List.insertionSort strLe ((ns.filter (fun k => decide (k ∉ namePriority))).dedup)

/-- Modelled from the spec: merging one attribute value — the new value wins,
except that for a list-valued attribute the marked existing elements are
appended after the freshly generated elements, preserving their order. -/
def mergeAttrVal (g : AttrValue) (t : Option XVal) : XVal :=
  match g, t with
  | .strs xs, some (.strs ys) =>
    .strs (xs.map (fun x => (x, false)) ++ ys.filter (fun e => e.2))
  | _, _ => attrToX g

/-- Modelled from the spec: how an attribute present only on the existing
rule survives — hand-authored-only attributes are carried over unchanged,
a list keeps its preservation-marked elements, anything else is dropped. -/
def surviveOld (n : String) (t : XVal) : Option XVal :=
  if handAuthoredOnly n then some t
  else
    match t with
    | .strs ys =>
      let kept := ys.filter (fun e => e.2)
      if kept.isEmpty then none else some (.strs kept)
    | _ => none

/-- Modelled from the spec: the merged value of attribute `n` of a matched
rule pair, or `none` when the attribute is dropped.  A new value wins (with
marked-element preservation); an existing-only attribute survives per
surviveOld. -/
def resolveAttr (n : String) (ga : List (String × AttrValue)) (ta : List (String × XVal)) :
    Option XVal :=
  match alookup n ga with
  | some g => some (mergeAttrVal g (alookup n ta))
  | none =>
    match alookup n ta with
    | some t => surviveOld n t
    | none => none

/-- Modelled from the spec: merge a matched (kind, name) pair of rules
attribute-by-attribute, emitting attributes in the fixed priority order. -/
def mergeRule (t : XRule) (g : GenRule) : XRule :=
  { kind := t.kind
    name := t.name
    attrs := (keyOrder (g.attrs.map Prod.fst ++ t.attrs.map Prod.fst)).filterMap
      (fun n => (resolveAttr n g.attrs t.attrs).map (fun v => (n, v))) }

/-- Whether existing rule `t` and generated rule `g` pair up: identical
(kind, name). -/
def ruleMatches (t : XRule) (g : GenRule) : Bool :=
  t.kind = g.kind && t.name = g.name

/-- Modelled from the spec: processing of one existing rule — a managed rule
matched by a generated rule is merged with its first match; everything else
is kept verbatim in place. -/
def mergeStep (gf : List GenRule) (t : XRule) : XRule :=
  if t.kind ∈ managedKinds then
    match gf.find? (fun g => ruleMatches t g) with
    | some g => mergeRule t g
    | none => t
  else t

/-- A generated rule inserted into the merged tree: merged against an empty
existing rule, so its attributes take the canonical priority order. -/
def insertRule (g : GenRule) : XRule :=
  mergeRule { kind := g.kind, name := g.name, attrs := [] } g

/-- Modelled from the spec: the rule-level merge — every existing rule is
processed in place, then the generated rules matching no existing rule are
appended. -/
def mergeRules (tf : List XRule) (gf : List GenRule) : List XRule :=
  tf.map (mergeStep gf) ++
    (gf.filter (fun g => !tf.any (fun t => ruleMatches t g))).map insertRule

/-- Modelled from the spec: a build-file tree — an optional load statement
(its string arguments) and the rule list. -/
structure XFile where
  load : Option (List String)
  rules : List XRule
deriving DecidableEq

/-- Modelled from the spec: a freshly generated build-file tree. -/
structure GenFile where
  load : Option (List String)
  rules : List GenRule
deriving DecidableEq

/-- The load statement recomputed fresh from a post-merge rule-kind set,
exactly as `generateLoad` computes it for generated rules. -/
def loadForKinds (kinds : List String) : Option (List String) :=
  let args := goRulesBzl :: loadableKinds.filter (fun k => decide (k ∈ kinds))
  if args.length = 1 then none else some args

/-- Modelled from the spec: the full merge — rules merged, load statement
recomputed from the final rule-kind set, never unioned from old and new. -/
def mergeFile (tf : XFile) (gf : GenFile) : XFile :=
  let rs := mergeRules tf.rules gf.rules
  { load := loadForKinds (rs.map XRule.kind), rules := rs }

/-! ## Generic lemmas about lookup and keys -/

theorem alookup_or {α : Type} (n : String) (l1 l2 : List (String × α)) :
    alookup n (l1 ++ l2) = (alookup n l1).or (alookup n l2) := by
  induction l1 with
  | nil => simp [alookup]
  | cons h t ih =>
    obtain ⟨k, v⟩ := h
    simp only [List.cons_append, alookup]
    split <;> simp [ih]

theorem alookup_eq_none {α : Type} (n : String) (l : List (String × α))
    (h : ∀ p ∈ l, p.1 ≠ n) : alookup n l = none := by
  induction l with
  | nil => rfl
  | cons hd tl ih =>
    obtain ⟨k, v⟩ := hd
    simp only [alookup]
    rw [if_neg (fun he => h (k, v) (List.mem_cons_self _ _) he.symm)]
    exact ih (fun p hp => h p (List.mem_cons_of_mem _ hp))

/-! ## Witness fixtures: a concrete generator and packages -/

def emptyPS : PlatformStrings := ⟨[], []⟩

def emptyTarget : Target := ⟨emptyPS, emptyPS, emptyPS, emptyPS, false⟩

def goTarget : Target := ⟨⟨["a.go"], []⟩, emptyPS, emptyPS, emptyPS, true⟩

def genW : generator :=
  ⟨⟨"example.com/repo", "/repo"⟩, fun imp _dir => .ok ⟨imp, defaultLibName⟩⟩

def pkgLibW : Package :=
  ⟨"/repo/a", "a", goTarget, emptyTarget, emptyTarget, emptyTarget, emptyTarget,
    [], false, false, false⟩

def pkgCgoW : Package :=
  ⟨"/repo/a", "a", emptyTarget, goTarget, emptyTarget, emptyTarget, emptyTarget,
    [], false, false, false⟩

/-! ## Claim C3 -/

/-- Claim C3 (code bug): in Workspace (UnoMode) mode the configured root
list is supposed to put the most specific (longest) matching root first, but
`sort.Reverse(dirs)` never re-sorts the slice, so the list stays in
ascending order: with configured directories /repo/sub1 and
/repo/sub1/nested under repository root /repo the stored list is
["sub1", "sub1/nested"], the first root that prefixes containing directory
sub1/nested/pkg is "sub1" — not "sub1/nested" as the claim (and the
source's own comment) require; had the list been reversed, "sub1/nested"
would indeed be selected. -/
theorem c3_root_order_bug :
    unoProjRoots "/repo" ["/repo/sub1", "/repo/sub1/nested"] = ["sub1", "sub1/nested"] ∧
      unoSelectRoot (unoProjRoots "/repo" ["/repo/sub1", "/repo/sub1/nested"])
          "sub1/nested/pkg" = some "sub1" ∧
      unoSelectRoot ["sub1/nested", "sub1"] "sub1/nested/pkg" = some "sub1/nested" := by
  refine ⟨?_, ?_, ?_⟩ <;> decide

/-! ## Claim C6 -/

/-- Claim C6: the composite resolver routes an import to the structured
(local) resolver `r` exactly when the import equals the module prefix, is
prefixed by the module prefix plus "/", or is syntactically relative; every
other import is delegated to the mode-specific strategy `e`.  The test
depends only on the import path, hence is applied independently per import. -/
theorem c6_dispatch_per_import (goPfx : String)
    (e r : String → String → Except String label) (imp dir : String) :
    resolverDispatch goPfx e r imp dir =
      if imp = goPfx ∨ goHasPrefix imp (goPfx ++ "/") = true ∨ isRelative imp = true
      then r imp dir
      else e imp dir := by
  unfold resolverDispatch
  by_cases h1 : imp = goPfx <;>
    by_cases h2 : goHasPrefix imp (goPfx ++ "/") = true <;>
      by_cases h3 : isRelative imp = true <;>
        simp [h1, h2, h3]

/-! ## Claim C7 -/

/-- Claim C7: the vendored resolver never returns an error: for every import
path and containing directory it returns exactly the label whose package is
"vendor/" prepended to the import path and whose rule name is the default
library name. -/
theorem c7_vendored_always_ok (imp dir : String) :
    vendoredResolve imp dir = .ok { pkg := "vendor/" ++ imp, name := defaultLibName } := rfl

/-! ## Claim C2 -/

/-- Claim C2 (counterexample): with exactly one distinct loadable kind
present (a single go_library rule), the source does emit a load statement —
`len(args) == 1` counts the module path, so only the zero-kind case is
suppressed — contradicting the claim that one distinct kind is also
suppressed. -/
theorem c2_counterexample :
    generateLoad [{ kind := "go_library", args := [], attrs := [] }] =
      some [goRulesBzl, "go_library"] := by decide

/-- Claim C2 (amended): generateLoad emits no load statement exactly when no
loadable kind is present among the rules (so a load naming only the module
path is never emitted); whenever a load statement is emitted, its first
argument is the module path, it names at least one kind, every kind it
names belongs to a rule in the list, and the kinds appear in the fixed
catalog order. -/
theorem c2_load_minimal (rs : List Rule) :
    (generateLoad rs = none ↔ ∀ k ∈ loadableKinds, k ∉ rs.map Rule.kind) ∧
      ∀ args, generateLoad rs = some args →
        args.head? = some goRulesBzl ∧ args.tail ≠ [] ∧
          (∀ k ∈ args.tail, ∃ r ∈ rs, r.kind = k) ∧ args.tail.Sublist loadableKinds := by
  simp only [generateLoad]
  by_cases hF : loadableKinds.filter (fun k => decide (k ∈ rs.map Rule.kind)) = []
  · rw [hF]
    refine ⟨⟨fun _ k hk => by simpa using List.filter_eq_nil_iff.mp hF k hk,
      fun _ => by simp⟩, ?_⟩
    intro args h
    simp at h
  · have hlen : (goRulesBzl ::
        loadableKinds.filter (fun k => decide (k ∈ rs.map Rule.kind))).length ≠ 1 := by
      simp only [List.length_cons, Nat.add_right_cancel_iff]
      simpa [List.length_eq_zero] using hF
    rw [if_neg hlen]
    constructor
    · constructor
      · intro h; exact absurd h (by simp)
      · intro hall
        exfalso
        apply hF
        rw [List.filter_eq_nil_iff]
        intro k hk
        simpa using hall k hk
    · intro args h
      obtain rfl : goRulesBzl ::
          loadableKinds.filter (fun k => decide (k ∈ rs.map Rule.kind)) = args :=
        Option.some.inj h
      refine ⟨rfl, by simpa using hF, ?_, List.filter_sublist _⟩
      intro k hk
      simp only [List.tail_cons, List.mem_filter, decide_eq_true_eq] at hk
      obtain ⟨-, hmem⟩ := hk
      obtain ⟨r, hr, hrk⟩ := List.mem_map.mp hmem
      exact ⟨r, hr, hrk⟩

/-- Claim C2 (witness): the amended theorem applied to a concrete rule list
holding a go_test and a go_library rule; the emitted load names both kinds
in catalog order after the module path. -/
theorem c2_load_minimal_witness :
    [goRulesBzl, "go_library", "go_test"].head? = some goRulesBzl ∧
      [goRulesBzl, "go_library", "go_test"].tail ≠ [] ∧
      (∀ k ∈ [goRulesBzl, "go_library", "go_test"].tail,
        ∃ r ∈ [({ kind := "go_test", args := [], attrs := [] } : Rule),
               { kind := "go_library", args := [], attrs := [] }], r.kind = k) ∧
      [goRulesBzl, "go_library", "go_test"].tail.Sublist loadableKinds :=
  (c2_load_minimal [{ kind := "go_test", args := [], attrs := [] },
    { kind := "go_library", args := [], attrs := [] }]).2
    [goRulesBzl, "go_library", "go_test"] (by decide)

/-! ## Claims C9 and C10 -/

/-- The fixed attribute priority order of the claim: name first, deps last. -/
def genAttrOrder : List String :=
  ["name", "srcs", "clinkopts", "copts", "data", "library", "visibility", "deps"]

theorem generateRule_keys_sublist (g : generator)
    (rel kind name visibility library : String) (hasTestdata : Bool) (target : Target) :
    (((generateRule g rel kind name visibility library hasTestdata target).attrs.map
      Prod.fst).Sublist genAttrOrder) := by
  unfold generateRule genAttrOrder
  simp only [List.map_cons, List.map_append]
  have hshape : (["srcs"] ++ ["clinkopts"] ++ ["copts"] ++ ["data"] ++ ["library"] ++
      ["visibility"] ++ ["deps"] : List String) =
      ["srcs", "clinkopts", "copts", "data", "library", "visibility", "deps"] := rfl
  refine List.Sublist.cons₂ "name" (hshape ▸ ?_)
  refine List.Sublist.append (List.Sublist.append (List.Sublist.append (List.Sublist.append
    (List.Sublist.append (List.Sublist.append ?_ ?_) ?_) ?_) ?_) ?_) ?_ <;>
    (split <;> simp)

theorem generateRule_name_head (g : generator)
    (rel kind name visibility library : String) (hasTestdata : Bool) (target : Target) :
    ((generateRule g rel kind name visibility library hasTestdata target).attrs.head?.map
      Prod.fst) = some "name" := rfl

/-- Claim C9: every rule the generator emits presents its attributes in the
fixed priority order name, srcs, clinkopts, copts, data, library,
visibility, deps, with the "name" attribute first whenever the rule carries
named attributes at all (the go_prefix rule carries its prefix as a
positional argument and has none). -/
theorem c9_attr_order (g : generator) (pkg : Package) (r : Rule)
    (hr : r ∈ generateRules g pkg) :
    ((r.attrs.map Prod.fst).Sublist genAttrOrder) ∧
      (r.attrs ≠ [] → r.attrs.head?.map Prod.fst = some "name") := by
  have hgen : ∀ rel kind name visibility library hasTestdata target,
      r = generateRule g rel kind name visibility library hasTestdata target →
      ((r.attrs.map Prod.fst).Sublist genAttrOrder) ∧
        (r.attrs ≠ [] → r.attrs.head?.map Prod.fst = some "name") := by
    intro rel kind name visibility library hasTestdata target hrq
    subst hrq
    exact ⟨generateRule_keys_sublist .., fun _ => generateRule_name_head ..⟩
  simp only [generateRules, List.mem_append, Option.mem_toList, Option.mem_def,
    Option.map_eq_some'] at hr
  rcases hr with h | ((((⟨⟨nm, rr⟩, hc, hrr⟩ | ⟨⟨nm, rr⟩, hc, hrr⟩) | h) | h) | h) | h
  · -- go_prefix rule
    split at h
    · simp only [List.mem_singleton] at h
      subst h
      exact ⟨List.nil_sublist _, fun hne => absurd rfl hne⟩
    · simp at h
  · -- cgo library
    simp only at hrr
    subst hrr
    unfold generateCgoLib at hc
    split at hc
    · simp at hc
    · simp only [Option.some.injEq, Prod.mk.injEq] at hc
      exact hgen _ _ _ _ _ _ _ hc.2.symm
  · -- library
    simp only at hrr
    subst hrr
    unfold generateLib at hc
    split at hc
    · simp at hc
    · simp only [Option.some.injEq, Prod.mk.injEq] at hc
      exact hgen _ _ _ _ _ _ _ hc.2.symm
  · -- binary
    unfold generateBin at h
    split at h
    · simp at h
    · simp only [Option.some.injEq] at h
      exact hgen _ _ _ _ _ _ _ h.symm
  · -- filegroup
    unfold filegroup at h
    split at h
    · simp at h
    · simp only [Option.some.injEq] at h
      subst h
      refine ⟨?_, fun _ => rfl⟩
      simp only [List.map_cons, List.map_nil]
      decide
  · -- internal test
    unfold generateTest at h
    split at h
    · simp at h
    · simp only [Option.some.injEq] at h
      exact hgen _ _ _ _ _ _ _ h.symm
  · -- external test
    unfold generateXTest at h
    split at h
    · simp at h
    · simp only [Option.some.injEq] at h
      exact hgen _ _ _ _ _ _ _ h.symm

/-- Claim C9 (witness): the library rule generated for a concrete package
with one Go source file; its attributes are name, srcs, visibility in
priority order with name first. -/
theorem c9_attr_order_witness :
    (((generateRule genW "a" "go_library" defaultLibName "//visibility:public" ""
        false goTarget).attrs.map Prod.fst).Sublist genAttrOrder) ∧
      ((generateRule genW "a" "go_library" defaultLibName "//visibility:public" ""
          false goTarget).attrs ≠ [] →
        (generateRule genW "a" "go_library" defaultLibName "//visibility:public" ""
          false goTarget).attrs.head?.map Prod.fst = some "name") :=
  c9_attr_order genW pkgLibW _ (by decide)

/-- The visibility attribute of a rule built by generateRule is exactly the
visibility passed in, whenever one is passed. -/
theorem alookup_visibility_generateRule (g : generator)
    (rel kind name visibility library : String) (hasTestdata : Bool) (target : Target)
    (h : visibility ≠ "") :
    alookup "visibility"
        (generateRule g rel kind name visibility library hasTestdata target).attrs =
      some (AttrValue.strs [visibility]) := by
  unfold generateRule
  simp only [alookup, if_neg (by decide : ¬("visibility" = "name")), alookup_or]
  rw [alookup_eq_none "visibility" _ (by split <;> simp),
    alookup_eq_none "visibility" _ (by split <;> simp),
    alookup_eq_none "visibility" _ (by split <;> simp),
    alookup_eq_none "visibility" _ (by split <;> simp),
    alookup_eq_none "visibility" _ (by split <;> simp)]
  rw [if_neg h]
  simp [alookup]

/-- Claim C10: every cgo-library rule the generator emits carries the
visibility attribute with the single value "//visibility:private",
unconditionally. -/
theorem c10_cgo_private (g : generator) (pkg : Package) (nm : String) (r : Rule)
    (h : generateCgoLib g pkg = some (nm, r)) :
    alookup "visibility" r.attrs = some (AttrValue.strs ["//visibility:private"]) := by
  unfold generateCgoLib at h
  split at h
  · simp at h
  · simp only [Option.some.injEq, Prod.mk.injEq] at h
    rw [← h.2]
    exact alookup_visibility_generateRule g pkg.rel "cgo_library" defaultCgoLibName
      "//visibility:private" "" false pkg.cgoLibrary (by decide)

/-- Claim C10 (witness): the cgo rule of a concrete package with one cgo
source file is private. -/
theorem c10_cgo_private_witness :
    alookup "visibility"
        (generateRule genW "a" "cgo_library" defaultCgoLibName "//visibility:private" ""
          false goTarget).attrs =
      some (AttrValue.strs ["//visibility:private"]) :=
  c10_cgo_private genW pkgCgoW defaultCgoLibName _ (by decide)

/-! ## Claim C5 -/

theorem isPfxOf_self_append (p rest : List Char) : isPfxOf p (p ++ rest) = true := by
  induction p with
  | nil => rfl
  | cons c cs ih => simp [isPfxOf, ih]

theorem getLast?_eq_of_mem_of_max (l : List Nat) (m : Nat) (hp : l.Pairwise (· < ·))
    (hm : m ∈ l) (hmax : ∀ x ∈ l, x ≤ m) : l.getLast? = some m := by
  induction l with
  | nil => simp at hm
  | cons a t ih =>
    cases t with
    | nil =>
      simp only [List.mem_singleton] at hm
      subst hm
      rfl
    | cons b t2 =>
      rw [List.getLast?_cons_cons]
      rcases List.mem_cons.mp hm with rfl | hm2
      · exfalso
        have hab : m < b := (List.pairwise_cons.mp hp).1 b (List.mem_cons_self _ _)
        have hba : b ≤ m := hmax b (List.mem_cons_of_mem _ (List.mem_cons_self _ _))
        omega
      · exact ih (List.pairwise_cons.mp hp).2 hm2
          (fun x hx => hmax x (List.mem_cons_of_mem _ hx))

/-- When a pattern has no occurrence in `t`, it is a prefix of no suffix of
`t`. -/
theorem no_occurrence (t pat : List Char) (hpat2 : pat ≠ [])
    (h : lastIndexSub t pat = none) : ∀ k, isPfxOf pat (t.drop k) = false := by
  unfold lastIndexSub at h
  rw [List.getLast?_eq_none_iff, List.filter_eq_nil_iff] at h
  intro k
  by_cases hk : k < t.length + 1
  · simpa using h k (List.mem_range.mpr hk)
  · push_neg at hk
    rw [List.drop_eq_nil_of_le (by omega)]
    cases pat with
    | nil => exact absurd rfl hpat2
    | cons c cs => rfl

/-- The last index of a pattern occurring at position `a.length` with no
occurrence strictly later. -/
theorem lastIndexSub_append (a pat b : List Char)
    (hno : ∀ k, a.length < k → isPfxOf pat ((a ++ pat ++ b).drop k) = false) :
    lastIndexSub (a ++ pat ++ b) pat = some a.length := by
  unfold lastIndexSub
  apply getLast?_eq_of_mem_of_max
  · exact List.Pairwise.sublist (List.filter_sublist _) (List.pairwise_lt_range _)
  · refine List.mem_filter.mpr ⟨List.mem_range.mpr ?_, ?_⟩
    · simp [List.length_append]
      omega
    · rw [List.append_assoc, List.drop_left]
      simp [isPfxOf_self_append]
  · intro x hx
    obtain ⟨-, hpred⟩ := List.mem_filter.mp hx
    by_contra hgt
    push_neg at hgt
    rw [hno x hgt] at hpred
    exact absurd hpred (by simp)

/-- Claim C5 (amended): the visibility of a public-defaulted rule narrows to
`//<ancestor-before-internal>:__subpackages__` when the package path
contains an "internal" segment which is neither the first nor the final
segment — that is, when the path contains the substring "/internal/", the
ancestor being the part before its last occurrence; it narrows to
`//:__subpackages__` when the path starts with "internal/" (and contains no
"/internal/"); otherwise — in particular when "internal" is the final
segment, as in "a/internal" or "internal" alone — the given default is
kept. -/
theorem c5_internal_visibility (rel pub : String) :
    (∀ a b : String, rel = a ++ "/internal/" ++ b →
        hasSub ("internal/" ++ b) "/internal/" = false →
        checkInternalVisibility rel pub = "//" ++ a ++ ":__subpackages__") ∧
      (hasSub rel "/internal/" = false → goHasPrefix rel "internal/" = true →
        checkInternalVisibility rel pub = "//:__subpackages__") ∧
      (hasSub rel "/internal/" = false → goHasPrefix rel "internal/" = false →
        checkInternalVisibility rel pub = pub) := by
  refine ⟨?_, ?_, ?_⟩
  · intro a b hdec hno
    have hdata : rel.data = a.data ++ "/internal/".data ++ b.data := by
      rw [hdec, String.data_append, String.data_append]
    have hrest : lastIndexSub ("internal/".data ++ b.data) "/internal/".data = none := by
      have : ("internal/" ++ b).data = "internal/".data ++ b.data := String.data_append _ _
      unfold hasSub at hno
      rw [this] at hno
      cases hl : lastIndexSub ("internal/".data ++ b.data) "/internal/".data with
      | none => rfl
      | some v => rw [hl] at hno; simp at hno
    have hmain : lastIndexSub rel.data "/internal/".data = some a.data.length := by
      rw [hdata]
      apply lastIndexSub_append
      intro k hk
      obtain ⟨j, rfl⟩ : ∃ j, k = a.data.length + (1 + j) := ⟨k - a.data.length - 1, by omega⟩
      have hsplit : a.data ++ "/internal/".data ++ b.data =
          a.data ++ ('/' :: ("internal/".data ++ b.data)) := by
        rw [List.append_assoc]
        rfl
      rw [hsplit, List.drop_append, Nat.add_comm 1 j, List.drop_succ_cons]
      exact no_occurrence _ _ (by decide) hrest j
    have htake : rel.data.take a.data.length = a.data := by
      rw [hdata, List.append_assoc]
      exact List.take_left _ _
    have ha : (⟨a.data⟩ : String) = a := by cases a; rfl
    unfold checkInternalVisibility
    rw [hmain]
    show "//" ++ (⟨List.take a.data.length rel.data⟩ : String) ++ ":__subpackages__" =
      "//" ++ a ++ ":__subpackages__"
    rw [htake, ha]
  · intro hno hpre
    have hnone : lastIndexSub rel.data "/internal/".data = none := by
      unfold hasSub at hno
      cases hl : lastIndexSub rel.data "/internal/".data with
      | none => rfl
      | some v => rw [hl] at hno; simp at hno
    unfold checkInternalVisibility
    rw [hnone, hpre]
    rfl
  · intro hno hpre
    have hnone : lastIndexSub rel.data "/internal/".data = none := by
      unfold hasSub at hno
      cases hl : lastIndexSub rel.data "/internal/".data with
      | none => rfl
      | some v => rw [hl] at hno; simp at hno
    unfold checkInternalVisibility
    rw [hnone, hpre]
    rfl

/-- Claim C5 (witness): the spec examples — a/b/internal/c narrows to
//a/b:__subpackages__, internal/c narrows to //:__subpackages__, and a/b
keeps the default — all via the amended theorem. -/
theorem c5_internal_visibility_witness :
    ("a/b/internal/c" : String) = "a/b" ++ "/internal/" ++ "c" ∧
      hasSub ("internal/" ++ "c") "/internal/" = false ∧
      checkInternalVisibility "a/b/internal/c" "//visibility:public" =
        "//" ++ "a/b" ++ ":__subpackages__" ∧
      checkInternalVisibility "internal/c" "//visibility:public" = "//:__subpackages__" ∧
      checkInternalVisibility "a/b" "//visibility:public" = "//visibility:public" :=
  ⟨by decide, by decide,
    (c5_internal_visibility "a/b/internal/c" "//visibility:public").1 "a/b" "c"
      (by decide) (by decide),
    (c5_internal_visibility "internal/c" "//visibility:public").2.1 (by decide) (by decide),
    (c5_internal_visibility "a/b" "//visibility:public").2.2 (by decide) (by decide)⟩

/-- Claim C5 (counterexample): the path "a/internal" contains "internal" as
a segment not at the root, so the claim requires //a:__subpackages__, but
the code keeps the public default because the "internal" segment is final
(the substring "/internal/" does not occur and the path does not start with
"internal/"). -/
theorem c5_counterexample :
    checkInternalVisibility "a/internal" "//visibility:public" = "//visibility:public" ∧
      checkInternalVisibility "a/internal" "//visibility:public" ≠ "//a:__subpackages__" ∧
      splitSeg "a/internal".data = ["a".data, "internal".data] := by
  refine ⟨?_, ?_, ?_⟩ <;> decide

/-! ## Claim C8 -/

theorem mem_mapListE_err (f : String → Except String String) (l : List String)
    (s e : String) (hs : s ∈ l) (he : f s = .error e) : e ∈ (mapListE f l).2 := by
  unfold mapListE
  exact List.mem_filterMap.mpr ⟨s, hs, by rw [he]⟩

theorem mem_mapListE_ok (f : String → Except String String) (l : List String)
    (s v : String) (hs : s ∈ l) (hv : f s = .ok v) : v ∈ (mapListE f l).1 := by
  unfold mapListE
  exact List.mem_filterMap.mpr ⟨s, hs, by rw [hv]; rfl⟩

theorem mem_mapListE_fst (f : String → Except String String) (l : List String)
    (v : String) (hv : v ∈ (mapListE f l).1) : ∃ s ∈ l, f s = .ok v := by
  unfold mapListE at hv
  obtain ⟨s, hs, h⟩ := List.mem_filterMap.mp hv
  refine ⟨s, hs, ?_⟩
  cases hf : f s with
  | error e => rw [hf] at h; simp [Except.toOption] at h
  | ok w => rw [hf] at h; simp [Except.toOption] at h; rw [h]

theorem psMem_psClean (s : String) (ps : PlatformStrings) :
    psMem s (psClean ps) ↔ psMem s ps := by
  unfold psMem psClean
  constructor
  · rintro (h | ⟨pl, hpl, hs⟩)
    · exact Or.inl (List.mem_dedup.mp h)
    · obtain ⟨x, hx, rfl⟩ := List.mem_map.mp hpl
      exact Or.inr ⟨x, hx, List.mem_dedup.mp hs⟩
  · rintro (h | ⟨pl, hpl, hs⟩)
    · exact Or.inl (List.mem_dedup.mpr h)
    · exact Or.inr ⟨(pl.1, pl.2.dedup), List.mem_map.mpr ⟨pl, hpl, rfl⟩,
        List.mem_dedup.mpr hs⟩

theorem psMap_err_mem (f : String → Except String String) (ps : PlatformStrings)
    (s e : String) (hs : psMem s ps) (he : f s = .error e) : e ∈ (psMap f ps).2 := by
  simp only [psMap]
  rcases hs with h | ⟨pl, hpl, hsl⟩
  · exact List.mem_append_left _ (mem_mapListE_err f ps.strs s e h he)
  · apply List.mem_append_right
    rw [List.mem_flatten]
    refine ⟨(mapListE f pl.2).2, ?_, mem_mapListE_err f pl.2 s e hsl he⟩
    rw [List.map_map]
    exact List.mem_map.mpr ⟨pl, hpl, rfl⟩

theorem psMap_ok_mem (f : String → Except String String) (ps : PlatformStrings)
    (s v : String) (hs : psMem s ps) (hv : f s = .ok v) : psMem v (psMap f ps).1 := by
  simp only [psMap, psMem]
  rcases hs with h | ⟨pl, hpl, hsl⟩
  · exact Or.inl (mem_mapListE_ok f ps.strs s v h hv)
  · refine Or.inr ⟨(pl.1, (mapListE f pl.2).1), ?_, mem_mapListE_ok f pl.2 s v hsl hv⟩
    rw [List.map_map]
    exact List.mem_map.mpr ⟨pl, hpl, rfl⟩

theorem psMap_fst_src (f : String → Except String String) (ps : PlatformStrings)
    (v : String) (hv : psMem v (psMap f ps).1) : ∃ s, psMem s ps ∧ f s = .ok v := by
  simp only [psMap, psMem] at hv
  rcases hv with h | ⟨pl, hpl, hsl⟩
  · obtain ⟨s, hs, hfs⟩ := mem_mapListE_fst f ps.strs v h
    exact ⟨s, Or.inl hs, hfs⟩
  · rw [List.map_map] at hpl
    obtain ⟨x, hx, rfl⟩ := List.mem_map.mp hpl
    obtain ⟨s, hs, hfs⟩ := mem_mapListE_fst f x.2 v hsl
    exact ⟨s, Or.inr ⟨x, hx, hs⟩, hfs⟩

theorem dependencies_def (g : generator) (imports : PlatformStrings) (dir : String) :
    dependencies g imports dir =
      (psClean (psMap (fun imp => match g.r imp dir with
          | .ok l => Except.ok (labelString l)
          | .error e => Except.error (mkResolveErr dir imp e)) imports).1,
        (psMap (fun imp => match g.r imp dir with
          | .ok l => Except.ok (labelString l)
          | .error e => Except.error (mkResolveErr dir imp e)) imports).2) := rfl

/-- Claim C8: a resolution failure for one import is non-fatal — the error,
naming the containing directory and the import path, is collected in the
log list; every import that resolves successfully still contributes its
label to the deps; and the deps contain nothing but labels of successfully
resolved imports, so only the failing dependency is omitted. -/
theorem c8_partial_failure (g : generator) (imports : PlatformStrings) (dir : String) :
    (∀ imp e, psMem imp imports → g.r imp dir = .error e →
        mkResolveErr dir imp e ∈ (dependencies g imports dir).2) ∧
      (∀ imp l, psMem imp imports → g.r imp dir = .ok l →
        psMem (labelString l) (dependencies g imports dir).1) ∧
      ∀ s, psMem s (dependencies g imports dir).1 →
        ∃ imp l, psMem imp imports ∧ g.r imp dir = .ok l ∧ s = labelString l := by
  rw [dependencies_def]
  refine ⟨?_, ?_, ?_⟩
  · intro imp e hmem herr
    exact psMap_err_mem _ imports imp (mkResolveErr dir imp e) hmem (by rw [herr])
  · intro imp l hmem hok
    rw [psMem_psClean]
    exact psMap_ok_mem _ imports imp (labelString l) hmem (by rw [hok])
  · intro s hmem
    rw [psMem_psClean] at hmem
    obtain ⟨imp, himp, hok⟩ := psMap_fst_src _ imports s hmem
    cases hr : g.r imp dir with
    | error e => rw [hr] at hok; simp at hok
    | ok l =>
      rw [hr] at hok
      simp only [Option.some.injEq] at hok
      refine ⟨imp, l, himp, hr, ?_⟩
      cases hok
      rfl

def gBad : generator :=
  ⟨⟨"example.com/repo", "/repo"⟩,
    fun imp _dir => if imp = "bad" then .error "nope" else .ok ⟨imp, defaultLibName⟩⟩

def importsW : PlatformStrings := ⟨["good", "bad"], [("linux", ["pgood"])]⟩

/-- Claim C8 (witness): with one failing import "bad" among "good" and the
linux-only "pgood", the formatted error is logged, the two successful
labels appear, and both hypothesis sides are discharged concretely. -/
theorem c8_partial_failure_witness :
    psMem "bad" importsW ∧ gBad.r "bad" "d" = .error "nope" ∧
      mkResolveErr "d" "bad" "nope" ∈ (dependencies gBad importsW "d").2 ∧
      psMem "pgood" importsW ∧ gBad.r "pgood" "d" = .ok ⟨"pgood", defaultLibName⟩ ∧
      psMem (labelString ⟨"pgood", defaultLibName⟩) (dependencies gBad importsW "d").1 :=
  ⟨Or.inl (by decide), rfl,
    (c8_partial_failure gBad importsW "d").1 "bad" "nope" (Or.inl (by decide)) rfl,
    Or.inr ⟨("linux", ["pgood"]), by decide, by decide⟩, rfl,
    (c8_partial_failure gBad importsW "d").2.1 "pgood" ⟨"pgood", defaultLibName⟩
      (Or.inr ⟨("linux", ["pgood"]), by decide, by decide⟩) rfl⟩

/-! ## Merge engine lemmas -/

theorem alookup_filterMap {α : Type} (l : List String) (f : String → Option α) (n : String) :
    alookup n (l.filterMap (fun k => (f k).map (fun v => (k, v)))) =
      if n ∈ l then f n else none := by
  induction l with
  | nil => simp [alookup]
  | cons k t ih =>
    cases hf : f k with
    | none =>
      simp only [List.filterMap_cons, hf, Option.map_none']
      rw [ih]
      by_cases hnk : n = k
      · subst hnk
        by_cases hnt : n ∈ t <;> simp [hnt, hf]
      · simp [hnk]
    | some v =>
      simp only [List.filterMap_cons, hf, Option.map_some', alookup]
      by_cases hnk : n = k
      · subst hnk
        simp [hf]
      · rw [if_neg hnk, ih]
        simp [hnk]

theorem alookup_none_of_not_mem {α : Type} (n : String) (l : List (String × α))
    (h : n ∉ l.map Prod.fst) : alookup n l = none := by
  apply alookup_eq_none
  intro p hp hpn
  exact h (List.mem_map.mpr ⟨p, hp, hpn⟩)

theorem mem_keyOrder (ns : List String) (n : String) : n ∈ keyOrder ns ↔ n ∈ ns := by
  unfold keyOrder
  simp only [List.mem_append, List.mem_filter, decide_eq_true_eq]
  constructor
  · rintro (⟨-, h⟩ | h)
    · exact h
    · have h2 := (List.perm_insertionSort strLe _).mem_iff.mp h
      rw [List.mem_dedup, List.mem_filter] at h2
      exact h2.1
  · intro h
    by_cases hp : n ∈ namePriority
    · exact Or.inl ⟨hp, h⟩
    · refine Or.inr ?_
      rw [(List.perm_insertionSort strLe _).mem_iff, List.mem_dedup, List.mem_filter]
      exact ⟨h, by simpa using hp⟩

theorem alookup_mergeRule (t : XRule) (g : GenRule) (n : String) :
    alookup n (mergeRule t g).attrs = resolveAttr n g.attrs t.attrs := by
  unfold mergeRule
  rw [alookup_filterMap]
  split
  · rfl
  · next h =>
    rw [mem_keyOrder] at h
    have hg : alookup n g.attrs = none :=
      alookup_none_of_not_mem n _ (fun hm => h (List.mem_append_left _ hm))
    have ht : alookup n t.attrs = none :=
      alookup_none_of_not_mem n _ (fun hm => h (List.mem_append_right _ hm))
    unfold resolveAttr
    rw [hg, ht]

theorem mergeAttrVal_idem (gv : AttrValue) (tv : Option XVal) :
    mergeAttrVal gv (some (mergeAttrVal gv tv)) = mergeAttrVal gv tv := by
  cases gv with
  | str s => rfl
  | plat ps => rfl
  | glob ps => rfl
  | strs xs =>
    have hbase : (xs.map (fun x => (x, false))).filter (fun e => e.2) = [] := by
      rw [List.filter_map]
      simp [Function.comp]
    cases tv with
    | none =>
      simp only [mergeAttrVal, attrToX]
      rw [hbase]
      simp
    | some xv =>
      cases xv with
      | strs ys =>
        simp only [mergeAttrVal]
        rw [List.filter_append, hbase, List.filter_filter]
        simp
      | str s =>
        simp only [mergeAttrVal, attrToX]
        rw [hbase]
        simp
      | plat ps =>
        simp only [mergeAttrVal, attrToX]
        rw [hbase]
        simp
      | glob ps =>
        simp only [mergeAttrVal, attrToX]
        rw [hbase]
        simp

theorem surviveOld_fix (n : String) (tv v : XVal) (h : surviveOld n tv = some v) :
    surviveOld n v = some v := by
  unfold surviveOld at h ⊢
  by_cases hh : handAuthoredOnly n = true
  · rw [if_pos hh] at h ⊢
  · rw [if_neg hh] at h ⊢
    cases tv with
    | str s => simp at h
    | plat ps => simp at h
    | glob ps => simp at h
    | strs ys =>
      simp only [] at h
      by_cases hk : (ys.filter (fun e => e.2)).isEmpty
      · rw [if_pos hk] at h
        simp at h
      · rw [if_neg hk] at h
        have hv : v = .strs (ys.filter (fun e => e.2)) := (Option.some.inj h).symm
        subst hv
        have hff : ((ys.filter (fun e => e.2)).filter (fun e => e.2)) =
            ys.filter (fun e => e.2) := by
          rw [List.filter_filter]
          simp
        show (if ((ys.filter (fun e => e.2)).filter (fun e => e.2)).isEmpty = true then none
            else some (XVal.strs ((ys.filter (fun e => e.2)).filter (fun e => e.2)))) =
          some (XVal.strs (ys.filter (fun e => e.2)))
        rw [hff, if_neg hk]

theorem resolveAttr_idem (t : XRule) (g : GenRule) (n : String) :
    resolveAttr n g.attrs (mergeRule t g).attrs = resolveAttr n g.attrs t.attrs := by
  cases hg : alookup n g.attrs with
  | some gv =>
    have h1 : resolveAttr n g.attrs t.attrs = some (mergeAttrVal gv (alookup n t.attrs)) := by
      unfold resolveAttr
      rw [hg]
    have h2 : resolveAttr n g.attrs (mergeRule t g).attrs =
        some (mergeAttrVal gv (alookup n (mergeRule t g).attrs)) := by
      unfold resolveAttr
      rw [hg]
    rw [h1, h2, alookup_mergeRule, h1, mergeAttrVal_idem]
  | none =>
    have h1 : resolveAttr n g.attrs t.attrs =
        (match alookup n t.attrs with | some tv => surviveOld n tv | none => none) := by
      unfold resolveAttr
      rw [hg]
    have h2 : resolveAttr n g.attrs (mergeRule t g).attrs =
        (match alookup n (mergeRule t g).attrs with
          | some tv => surviveOld n tv
          | none => none) := by
      unfold resolveAttr
      rw [hg]
    rw [h2, alookup_mergeRule, h1]
    cases ht : alookup n t.attrs with
    | none => rfl
    | some tv =>
      show (match surviveOld n tv with | some tv2 => surviveOld n tv2 | none => none) =
        surviveOld n tv
      cases hs : surviveOld n tv with
      | none => rfl
      | some v => exact surviveOld_fix n tv v hs

theorem map_fst_filterMap {α : Type} (l : List String) (f : String → Option α) :
    (l.filterMap (fun k => (f k).map (fun v => (k, v)))).map Prod.fst =
      l.filter (fun k => (f k).isSome) := by
  induction l with
  | nil => rfl
  | cons k t ih =>
    cases hf : f k <;>
      simp [List.filterMap_cons, hf, List.filter_cons, ih]

theorem filterMap_eq_filter_filterMap {α : Type} (l : List String) (f : String → Option α) :
    l.filterMap f = (l.filter (fun n => (f n).isSome)).filterMap f := by
  induction l with
  | nil => rfl
  | cons a t ih =>
    cases hf : f a <;>
      simp [List.filterMap_cons, List.filter_cons, hf, ih]

theorem filterMap_eq_of_filter_eq {α : Type} (l1 l2 : List String) (f : String → Option α)
    (h : l1.filter (fun n => (f n).isSome) = l2.filter (fun n => (f n).isSome)) :
    l1.filterMap f = l2.filterMap f := by
  rw [filterMap_eq_filter_filterMap l1 f, filterMap_eq_filter_filterMap l2 f, h]

theorem keyOrder_filter_eq (S1 S2 : List String) (p : String → Bool)
    (hp : ∀ n, p n = true → (n ∈ S1 ∧ n ∈ S2)) :
    (keyOrder S1).filter p = (keyOrder S2).filter p := by
  unfold keyOrder
  rw [List.filter_append, List.filter_append]
  congr 1
  · rw [List.filter_filter, List.filter_filter]
    apply List.filter_congr
    intro k _
    by_cases hpk : p k = true
    · obtain ⟨h1, h2⟩ := hp k hpk
      simp [h1, h2]
    · simp only [Bool.not_eq_true] at hpk
      simp [hpk]
  · have hsorted : ∀ S : List String, List.Pairwise strLe
        ((List.insertionSort strLe ((S.filter (fun k =>
          decide (k ∉ namePriority))).dedup)).filter p) :=
      fun S => List.Pairwise.sublist (List.filter_sublist _)
        (List.sorted_insertionSort strLe _)
    have hnodup : ∀ S : List String,
        ((List.insertionSort strLe ((S.filter (fun k =>
          decide (k ∉ namePriority))).dedup)).filter p).Nodup :=
      fun S => List.Nodup.sublist (List.filter_sublist _)
        (((List.perm_insertionSort strLe _).nodup_iff).mpr (List.nodup_dedup _))
    have hmem : ∀ (S : List String) (x : String), x ∈
        ((List.insertionSort strLe ((S.filter (fun k =>
          decide (k ∉ namePriority))).dedup)).filter p) ↔
        (p x = true ∧ x ∉ namePriority ∧ x ∈ S) := by
      intro S x
      rw [List.mem_filter, (List.perm_insertionSort strLe _).mem_iff, List.mem_dedup,
        List.mem_filter]
      simp only [decide_eq_true_eq]
      tauto
    apply List.eq_of_perm_of_sorted (r := strLe) _ (hsorted S1) (hsorted S2)
    rw [List.perm_ext_iff_of_nodup (hnodup S1) (hnodup S2)]
    intro x
    rw [hmem S1 x, hmem S2 x]
    constructor
    · rintro ⟨hpx, hnp, -⟩
      exact ⟨hpx, hnp, (hp x hpx).2⟩
    · rintro ⟨hpx, hnp, -⟩
      exact ⟨hpx, hnp, (hp x hpx).1⟩

theorem mergeRule_keys (t : XRule) (g : GenRule) :
    (mergeRule t g).attrs.map Prod.fst =
      (keyOrder (g.attrs.map Prod.fst ++ t.attrs.map Prod.fst)).filter
        (fun n => (resolveAttr n g.attrs t.attrs).isSome) := by
  unfold mergeRule
  rw [map_fst_filterMap]

theorem mem_of_alookup_some {α : Type} {n : String} {l : List (String × α)} {v : α}
    (h : alookup n l = some v) : n ∈ l.map Prod.fst := by
  by_contra hn
  rw [alookup_none_of_not_mem n l hn] at h
  cases h

theorem mergeRule_idem (t : XRule) (g : GenRule) :
    mergeRule (mergeRule t g) g = mergeRule t g := by
  have hattrs : (mergeRule (mergeRule t g) g).attrs = (mergeRule t g).attrs := by
    show (keyOrder (g.attrs.map Prod.fst ++ (mergeRule t g).attrs.map Prod.fst)).filterMap
        (fun n => (resolveAttr n g.attrs (mergeRule t g).attrs).map (fun v => (n, v))) =
      (keyOrder (g.attrs.map Prod.fst ++ t.attrs.map Prod.fst)).filterMap
        (fun n => (resolveAttr n g.attrs t.attrs).map (fun v => (n, v)))
    have hfun : (fun n => (resolveAttr n g.attrs (mergeRule t g).attrs).map
        (fun v => (n, v))) =
        (fun n => (resolveAttr n g.attrs t.attrs).map (fun v => (n, v))) := by
      funext n
      rw [resolveAttr_idem]
    rw [hfun]
    apply filterMap_eq_of_filter_eq
    apply keyOrder_filter_eq
    intro n hq
    have hres : (resolveAttr n g.attrs t.attrs).isSome = true := by
      cases hr : resolveAttr n g.attrs t.attrs with
      | none => rw [hr] at hq; simp at hq
      | some v => rfl
    have hS1 : n ∈ g.attrs.map Prod.fst ++ t.attrs.map Prod.fst := by
      cases hgn : alookup n g.attrs with
      | some gv => exact List.mem_append_left _ (mem_of_alookup_some hgn)
      | none =>
        cases htn : alookup n t.attrs with
        | some tv => exact List.mem_append_right _ (mem_of_alookup_some htn)
        | none =>
          exfalso
          unfold resolveAttr at hres
          rw [hgn, htn] at hres
          simp at hres
    refine ⟨?_, hS1⟩
    cases hgn : alookup n g.attrs with
    | some gv => exact List.mem_append_left _ (mem_of_alookup_some hgn)
    | none =>
      apply List.mem_append_right
      rw [mergeRule_keys, List.mem_filter]
      exact ⟨(mem_keyOrder _ _).mpr hS1, hres⟩
  show (⟨t.kind, t.name, (mergeRule (mergeRule t g) g).attrs⟩ : XRule) =
    ⟨t.kind, t.name, (mergeRule t g).attrs⟩
  rw [hattrs]

theorem mergeStep_kind_name (gf : List GenRule) (t : XRule) :
    (mergeStep gf t).kind = t.kind ∧ (mergeStep gf t).name = t.name := by
  unfold mergeStep
  split
  · cases gf.find? (fun g => ruleMatches t g) with
    | none => exact ⟨rfl, rfl⟩
    | some g => exact ⟨rfl, rfl⟩
  · exact ⟨rfl, rfl⟩

theorem ruleMatches_congr (t t2 : XRule) (hk : t2.kind = t.kind) (hn : t2.name = t.name) :
    (fun g => ruleMatches t2 g) = (fun g => ruleMatches t g) := by
  funext g
  unfold ruleMatches
  rw [hk, hn]

theorem mergeStep_idem (gf : List GenRule) (t : XRule) :
    mergeStep gf (mergeStep gf t) = mergeStep gf t := by
  by_cases hk : t.kind ∈ managedKinds
  · cases hfind : gf.find? (fun g => ruleMatches t g) with
    | none =>
      have hstep : mergeStep gf t = t := by
        unfold mergeStep
        rw [if_pos hk, hfind]
      rw [hstep, hstep]
    | some g =>
      have hstep : mergeStep gf t = mergeRule t g := by
        unfold mergeStep
        rw [if_pos hk, hfind]
      rw [hstep]
      unfold mergeStep
      rw [if_pos (show (mergeRule t g).kind ∈ managedKinds from hk),
        ruleMatches_congr t (mergeRule t g) rfl rfl, hfind]
      exact mergeRule_idem t g
  · have hstep : mergeStep gf t = t := by
      unfold mergeStep
      rw [if_neg hk]
    rw [hstep, hstep]

theorem mergeStep_insert (gf : List GenRule)
    (hnd : (gf.map (fun g => (g.kind, g.name))).Nodup) (g : GenRule) (hg : g ∈ gf) :
    mergeStep gf (insertRule g) = insertRule g := by
  have hmatches : ruleMatches (insertRule g) g = true := by
    unfold ruleMatches insertRule mergeRule
    simp
  by_cases hk : g.kind ∈ managedKinds
  · have hfind : gf.find? (fun g2 => ruleMatches (insertRule g) g2) = some g := by
      cases hf : gf.find? (fun g2 => ruleMatches (insertRule g) g2) with
      | none =>
        exfalso
        rw [List.find?_eq_none] at hf
        exact hf g hg hmatches
      | some g0 =>
        have hg0mem : g0 ∈ gf := List.mem_of_find?_eq_some hf
        have hg0m : ruleMatches (insertRule g) g0 = true := List.find?_some hf
        have hpair : (fun x => (x.kind, x.name)) g0 = (fun x => (x.kind, x.name)) g := by
          unfold ruleMatches insertRule mergeRule at hg0m
          simp only [Bool.and_eq_true, decide_eq_true_eq] at hg0m
          simp [hg0m.1, hg0m.2]
        rw [List.inj_on_of_nodup_map hnd hg0mem hg hpair]
    unfold mergeStep
    rw [if_pos (show (insertRule g).kind ∈ managedKinds from hk), hfind]
    exact mergeRule_idem _ g
  · unfold mergeStep
    rw [if_neg (show (insertRule g).kind ∉ managedKinds from hk)]

theorem mergeRules_idem (tf : List XRule) (gf : List GenRule)
    (hnd : (gf.map (fun g => (g.kind, g.name))).Nodup) :
    mergeRules (mergeRules tf gf) gf = mergeRules tf gf := by
  unfold mergeRules
  have hmap : ((tf.map (mergeStep gf) ++
      (gf.filter (fun g => !tf.any (fun t => ruleMatches t g))).map insertRule).map
        (mergeStep gf)) =
      tf.map (mergeStep gf) ++
        (gf.filter (fun g => !tf.any (fun t => ruleMatches t g))).map insertRule := by
    rw [List.map_append, List.map_map, List.map_map]
    congr 1
    · apply List.map_congr_left
      intro t _
      exact mergeStep_idem gf t
    · apply List.map_congr_left
      intro g hgmem
      exact mergeStep_insert gf hnd g (List.mem_of_mem_filter hgmem)
  have hfilter : gf.filter (fun g =>
      !(tf.map (mergeStep gf) ++
        (gf.filter (fun g2 => !tf.any (fun t => ruleMatches t g2))).map insertRule).any
          (fun t => ruleMatches t g)) = [] := by
    rw [List.filter_eq_nil_iff]
    intro g hg
    simp only [Bool.not_eq_true', Bool.not_eq_false]
    rw [List.any_eq_true]
    by_cases hmatch : tf.any (fun t => ruleMatches t g) = true
    · obtain ⟨t, ht, hm⟩ := List.any_eq_true.mp hmatch
      refine ⟨mergeStep gf t, List.mem_append_left _ (List.mem_map.mpr ⟨t, ht, rfl⟩), ?_⟩
      unfold ruleMatches at hm ⊢
      rw [(mergeStep_kind_name gf t).1, (mergeStep_kind_name gf t).2]
      exact hm
    · refine ⟨insertRule g, List.mem_append_right _
        (List.mem_map.mpr ⟨g, List.mem_filter.mpr ⟨hg, by simp [hmatch]⟩, rfl⟩), ?_⟩
      unfold ruleMatches insertRule mergeRule
      simp
  rw [hmap, hfilter, List.map_nil, List.append_nil]

/-- Claim C1: the full-tree merge is idempotent in its first argument —
remerging the merged tree with the same generated tree changes nothing,
provided the generated tree satisfies the data-model invariant that its
(kind, name) pairs are unique within the file. -/
theorem c1_merge_idempotent (tf : XFile) (gf : GenFile)
    (hnd : (gf.rules.map (fun g => (g.kind, g.name))).Nodup) :
    mergeFile (mergeFile tf gf) gf = mergeFile tf gf := by
  show (⟨loadForKinds ((mergeRules (mergeRules tf.rules gf.rules) gf.rules).map XRule.kind),
      mergeRules (mergeRules tf.rules gf.rules) gf.rules⟩ : XFile) =
    ⟨loadForKinds ((mergeRules tf.rules gf.rules).map XRule.kind),
      mergeRules tf.rules gf.rules⟩
  rw [mergeRules_idem tf.rules gf.rules hnd]

/-! ## Concrete merge fixtures, mirroring the merger test data -/

def xTestRuleW : XRule :=
  ⟨"go_test", "go_default_test",
    [("size", XVal.str "small"),
     ("srcs", XVal.strs [("gen_test.go", true), ("parse_test.go", false)]),
     ("library", XVal.str ":go_default_library")]⟩

def genTestRuleW : GenRule :=
  ⟨"go_test", "go_default_test",
    [("srcs", AttrValue.strs ["parse_test.go", "print_test.go"]),
     ("library", AttrValue.str ":go_default_library")]⟩

def xfileW : XFile :=
  ⟨some [goRulesBzl, "go_library", "go_test", "go_binary"],
    [⟨"go_library", "go_default_library", [("srcs", XVal.strs [("a.go", false)])]⟩,
     xTestRuleW]⟩

def genfileW : GenFile :=
  ⟨some [goRulesBzl, "go_library", "go_test"],
    [⟨"go_library", "go_default_library",
       [("srcs", AttrValue.strs ["lex.go", "print.go"])]⟩,
     genTestRuleW]⟩

/-- Claim C1 (witness): idempotence at a concrete pair of trees shaped like
the merger test: an existing file with a preservation-marked test source and
hand-authored size, and a freshly generated file for the same rules. -/
theorem c1_merge_idempotent_witness :
    ((genfileW.rules.map (fun g => (g.kind, g.name))).Nodup) ∧
      mergeFile (mergeFile xfileW genfileW) genfileW = mergeFile xfileW genfileW :=
  ⟨by decide, c1_merge_idempotent xfileW genfileW (by decide)⟩

/-! ## Claim C4 -/

/-- Claim C4: in the merged tree, the matched rule of a managed kind keeps,
for a list-valued attribute generated with elements `xs`, every existing
element bearing the preservation marker — with its marker, appended after
the freshly generated elements, in their original relative order (they are
exactly the marked sublist of the existing value, in order). -/
theorem c4_preserved_elements (tf : List XRule) (gf : List GenRule) (t : XRule)
    (g : GenRule) (n : String) (ys : List (String × Bool)) (xs : List String)
    (ht : t ∈ tf) (hk : t.kind ∈ managedKinds)
    (hfind : gf.find? (fun g2 => ruleMatches t g2) = some g)
    (htn : alookup n t.attrs = some (.strs ys))
    (hgn : alookup n g.attrs = some (.strs xs)) :
    ∃ r ∈ mergeRules tf gf, r.kind = t.kind ∧ r.name = t.name ∧
      alookup n r.attrs =
        some (.strs (xs.map (fun x => (x, false)) ++ ys.filter (fun e => e.2))) := by
  refine ⟨mergeStep gf t, List.mem_append_left _ (List.mem_map.mpr ⟨t, ht, rfl⟩),
    (mergeStep_kind_name gf t).1, (mergeStep_kind_name gf t).2, ?_⟩
  have hstep : mergeStep gf t = mergeRule t g := by
    unfold mergeStep
    rw [if_pos hk, hfind]
  rw [hstep, alookup_mergeRule]
  unfold resolveAttr
  rw [hgn, htn]
  rfl

/-- Claim C4 (witness): at the concrete test fixture, the merged go_test
rule's srcs are the two fresh sources followed by the marked gen_test.go,
marker intact. -/
theorem c4_preserved_elements_witness :
    ∃ r ∈ mergeRules xfileW.rules genfileW.rules,
      r.kind = "go_test" ∧ r.name = "go_default_test" ∧
      alookup "srcs" r.attrs = some (.strs
        [("parse_test.go", false), ("print_test.go", false), ("gen_test.go", true)]) :=
  c4_preserved_elements xfileW.rules genfileW.rules xTestRuleW genTestRuleW "srcs"
    [("gen_test.go", true), ("parse_test.go", false)] ["parse_test.go", "print_test.go"]
    (by decide) (by decide) (by decide) (by decide) (by decide)
